import Mathlib

/-!
Verification of the tab-disambiguation and site-navigation resolver of the
viva-ai browser extension (`apps/extension/src/background.js`).

JavaScript strings are embedded as `List Char`; JavaScript numbers as `ℚ`
(all arithmetic performed by the resolver is exact on rationals, so `ℚ`
reproduces IEEE-double results on every input considered here).
Each definition mirrors one source function and keeps its name.
-/

namespace VivaAI

/-- Embed a Lean string literal as a JavaScript string value. -/
def js (s : String) : List Char := s.toList

/-- Whitespace as used by `String.prototype.trim` and the `/\s+/` split
(model restricted to the ASCII whitespace characters; no input considered
in this development contains the further Unicode space characters). -/
def isWs (c : Char) : Bool := c = ' ' || c = '\t' || c = '\n' || c = '\r'

/-- `String.prototype.toLowerCase` (ASCII model). -/
def lower (s : List Char) : List Char := s.map Char.toLower

/-- `String.prototype.trim`. -/
def trim (s : List Char) : List Char :=
  ((s.dropWhile isWs).reverse.dropWhile isWs).reverse

/-- `hay.includes(needle)` — substring containment, as in
`String.prototype.includes`. -/
def incl : List Char → List Char → Bool
  | hay, needle =>
    needle.isPrefixOf hay ||
    match hay with
    | [] => false
    | _ :: t => incl t needle

/-- `str.split(/\s+/)`: auxiliary — `cur` is the reversed current chunk and
`skipping` records that the previous character was part of the separator
run currently being consumed (so further whitespace extends that run
instead of opening a new empty chunk). -/
def splitWsGo : List Char → List Char → Bool → List (List Char)
  | [], cur, _ => [cur.reverse]
  | c :: rest, cur, skipping =>
    if isWs c then
      if skipping then splitWsGo rest [] true
      else cur.reverse :: splitWsGo rest [] true
    else splitWsGo rest (c :: cur) false

/-- `str.split(/\s+/)` — split on maximal whitespace runs, keeping the empty
chunks that JavaScript produces at the ends. -/
def splitWs (l : List Char) : List (List Char) := splitWsGo l [] false

/-- `text.indexOf(c, pos)` expressed on suffixes: returns the suffix of the
text just after the first occurrence of `c`, or `none` when `c` does not
occur. Used to model the cursor `pos = idx + 1` of the character-level
fuzzy loop in `fuzzyMatchScore`. -/
def dropAfterChar (c : Char) : List Char → Option (List Char)
  | [] => none
  | x :: xs => if x = c then some xs else dropAfterChar c xs

/-- The character-level fuzzy loop of `fuzzyMatchScore`: for each character
of the query in order, search the text from the current cursor; on a hit,
count it and advance the cursor past the hit; on a miss, leave the cursor. -/
def charFuzzyMatches : List Char → List Char → Nat
  | [], _ => 0
  | c :: q, t =>
    match dropAfterChar c t with
    | some t' => 1 + charFuzzyMatches q t'
    | none => charFuzzyMatches q t

/-- One inner iteration row of the `levenshteinDistance` matrix:
given the previous row (`diag :: rest`, starting at column `j-1`), the
current row's value `left` at column `j-1`, and the remaining characters
`ys` of `str2`, produce the current row's values at columns `j, j+1, …`,
each `min(up + 1, left + 1, diag + cost)` exactly as in the source. -/
def levRowAux (c : Char) : List Char → List Nat → Nat → List Nat
  | [], _, _ => []
  | _ :: _, [], _ => []
  | y :: ys, diag :: rest, left =>
    let v := min (min (rest.headD 0 + 1) (left + 1))
      (diag + (if c = y then 0 else 1))
    v :: levRowAux c ys rest v

/-- One outer iteration of the `levenshteinDistance` matrix: row `i` from
row `i-1`; its first entry is `matrix[i][0] = i = matrix[i-1][0] + 1`. -/
def levStep (s2 : List Char) (prev : List Nat) (c : Char) : List Nat :=
  (prev.headD 0 + 1) :: levRowAux c s2 prev (prev.headD 0 + 1)

/-- `levenshteinDistance(str1, str2)` — the dynamic-programming matrix of
the source, row by row: row 0 is `[0, 1, …, len2]`, each later row is
produced by `levStep`, and the result is `matrix[len1][len2]`, the last
entry of the last row. -/
def levenshteinDistance (s1 s2 : List Char) : Nat :=
  (s1.foldl (levStep s2) (List.range (s2.length + 1))).getLastD 0

/-- The normalization of `phoneticSimilarity`:
`str.toLowerCase().replace(/[^a-z0-9]/g, '')`. -/
def isCleanChar (c : Char) : Bool :=
  ('a' ≤ c && c ≤ 'z') || ('0' ≤ c && c ≤ '9')

/-- Lowercase and strip every character outside `[a-z0-9]`. -/
def cleanStr (s : List Char) : List Char := (lower s).filter isCleanChar

/-- The static speech-recognition confusion table of `phoneticSimilarity`,
in source order; each entry is `(spoken, written)`. -/
def patternTable : List (List Char × List Char) :=
  [ (js "getup", js "github"),
    (js "git hub", js "github"),
    (js "youtoo", js "youtube"),
    (js "youtube", js "youtube"),
    (js "slak", js "slack"),
    (js "krome", js "chrome") ]

/-- `phoneticSimilarity(str1, str2)`: normalize both inputs; if some table
entry has its spoken form contained in one cleaned input and its written
form in the other (either direction), return 95; otherwise return the
Levenshtein similarity `((maxLen - distance) / maxLen) * 100` (0 when both
cleaned inputs are empty). -/
def phoneticSimilarity (str1 str2 : List Char) : ℚ :=
  let clean1 := cleanStr str1
  let clean2 := cleanStr str2
  if patternTable.any (fun p =>
      (incl clean1 p.1 && incl clean2 p.2) ||
      (incl clean1 p.2 && incl clean2 p.1)) then 95
  else
    let maxLen := max clean1.length clean2.length
    if maxLen = 0 then 0
    else ((maxLen : ℚ) - (levenshteinDistance clean1 clean2 : ℚ)) / maxLen * 100

/-- `fuzzyMatchScore(query, text)` — the graduated 0–100 scorer: empty text
0; exact 100; prefix 90; substring 85; phonetic similarity above 80 taken
as is; all query words matched 70; some words matched `50 + fraction·20`;
otherwise the maximum of the character-level subsequence score
`(matches / len) · 40` and half the phonetic score. -/
def fuzzyMatchScore (query text : List Char) : ℚ :=
  if text = [] then 0
  else
    let queryLower := trim (lower query)
    let textLower := lower text
    if textLower = queryLower then 100
    else if queryLower.isPrefixOf textLower then 90
    else if incl textLower queryLower then 85
    else
      let phoneticScore := phoneticSimilarity queryLower textLower
      if phoneticScore > 80 then phoneticScore
      else
        let words := splitWs queryLower
        let textWords := splitWs textLower
        let matchingWords := words.filter
          (fun w => textWords.any (fun tw => incl tw w))
        if matchingWords.length = words.length then 70
        else if matchingWords.length > 0 then
          50 + ((matchingWords.length : ℚ) / (words.length : ℚ)) * 20
        else
          let fuzzyScore :=
            ((charFuzzyMatches queryLower textLower : ℚ) / (queryLower.length : ℚ)) * 40
          max fuzzyScore (phoneticScore * 0.5)

/-- A browser tab as read by `executeTabSwitch`: only the two fields the
scorer consumes; an absent (`undefined`) field is the empty string, which
`fuzzyMatchScore` maps to 0 exactly as `if (!text) return 0` does. -/
structure Tab where
  title : List Char
  url : List Char
deriving DecidableEq, Repr

/-- Candidate score of one tab: `Math.max(titleScore, urlScore)` with
`titleScore/urlScore` the fuzzy scores against title and URL. -/
def candScore (q : List Char) (t : Tab) : ℚ :=
  max (fuzzyMatchScore q t.title) (fuzzyMatchScore q t.url)

/-- How `executeTabSwitch` can fail after the tab list is obtained:
`noMatch s` is the thrown `No good tab match for: … (best score: s)`, and
`typeErrorUndefinedScore` is the `TypeError` raised by reading
`scoredTabs[0].score` when the tab list is empty (`scoredTabs[0]` is
`undefined`). -/
inductive TabSwitchFailure where
  | noMatch (best : ℚ)
  | typeErrorUndefinedScore
deriving DecidableEq, Repr

instance : DecidableEq (Except TabSwitchFailure (Tab × ℚ)) := fun a b =>
  match a, b with
  | .ok x, .ok y => decidable_of_iff (x = y) (by simp)
  | .error x, .error y => decidable_of_iff (x = y) (by simp)
  | .ok _, .error _ => isFalse (by simp)
  | .error _, .ok _ => isFalse (by simp)

/-- The selection core of `executeTabSwitch` (the spec's `selectTab`):
score every tab by `candScore`, sort descending by score with the stable
comparator `(a, b) => b.score - a.score`, take `scoredTabs[0]`, and fail
below threshold 30. The Chrome calls around it (querying the tab list,
activating the chosen tab) are the caller's effects. -/
def selectTab (q : List Char) (tabs : List Tab) : Except TabSwitchFailure (Tab × ℚ) :=
  let scoredTabs := tabs.map (fun t => (t, candScore q t))
  let sorted := scoredTabs.mergeSort (fun a b => decide (b.2 ≤ a.2))
  match sorted with
  | [] => .error .typeErrorUndefinedScore
  | bestMatch :: _ =>
    if bestMatch.2 < 30 then .error (.noMatch bestMatch.2) else .ok bestMatch

/-- The best candidate score over a tab list (0 for the empty list). -/
def bestScore (q : List Char) (tabs : List Tab) : ℚ :=
  match tabs.map (candScore q) with
  | [] => 0
  | s :: rest => rest.foldl max s

/-- Whether an `executeTabSwitch` outcome is the `No good tab match` throw. -/
def isNoMatchFailure : Except TabSwitchFailure (Tab × ℚ) → Bool
  | .error (.noMatch _) => true
  | _ => false

/-! ### Navigation URL resolution -/

/-- A character allowed in a URL scheme after the first (RFC 3986 /
WHATWG: ASCII alphanumeric, `+`, `-`, `.`). -/
def isSchemeChar (c : Char) : Bool :=
  c.isAlphanum || c = '+' || c = '-' || c = '.'

/-- A character of an ASCII host name (model: alphanumerics, dots and
hyphens; hosts with user info, ports, brackets or non-ASCII labels are
outside the model and treated as unparseable). -/
def isHostChar (c : Char) : Bool := c.isAlphanum || c = '.' || c = '-'

/-- A path/query/fragment character that the WHATWG serializer passes
through unchanged; anything else (space, backslash, quotes, braces, …)
would be percent-encoded or rewritten, and such inputs are outside the
model. -/
def isPlainPathChar (c : Char) : Bool :=
  c.isAlphanum ||
  c = '/' || c = '?' || c = '#' || c = '-' || c = '.' || c = '_' || c = '~' ||
  c = '!' || c = '$' || c = '&' || c = '=' || c = ':' || c = '@' || c = '%' ||
  c = '+' || c = ',' || c = ';' || c = '(' || c = ')' || c = '*' || c = '\''

/-- The scheme of an absolute URL: the characters before the first `:`,
required to be a non-empty run of scheme characters starting with a
letter; returned lower-cased as the WHATWG parser does. `none` when the
input cannot be an absolute URL (`new URL` throws). -/
def schemeOf (input : List Char) : Option (List Char) :=
  let scheme := input.takeWhile (fun c => c ≠ ':')
  if scheme.length = input.length then none
  else if scheme = [] then none
  else if ¬ (scheme.headD ' ').isAlpha then none
  else if ¬ scheme.all isSchemeChar then none
  else some (lower scheme)

/-- Authority and path of a special-scheme URL from the part after the
colon: any run of slashes, then a non-empty ASCII host (lower-cased in
the serialization, as the real parser does), then a plain
path/query/fragment (serialized with `/` for the empty path). Hosts or
paths the serializer would rewrite (user info, ports, percent-encoded
characters, backslashes, non-ASCII) are outside the model and yield
`none`. -/
def hostPathHref (schemeL rest : List Char) : Option (List Char) :=
  let afterSlashes := rest.dropWhile (fun c => c = '/' || c = '\\')
  let host := afterSlashes.takeWhile
    (fun c => c ≠ '/' && c ≠ '?' && c ≠ '#' && c ≠ '\\')
  if host = [] then none
  else if ¬ host.all isHostChar then none
  else
    let pathEtc := afterSlashes.drop host.length
    if ¬ pathEtc.all isPlainPathChar then none
    else
      let path := if pathEtc.headD '/' = '/' then pathEtc else js "/" ++ pathEtc
      let path := if path = [] then js "/" else path
      some (schemeL ++ js "://" ++ lower host ++ path)

/-- `new URL(input)` followed by the `http:`/`https:` protocol check of
`resolveNavigationURL`, returning `url.href` on success. Model of the
WHATWG parser restricted to well-behaved absolute URLs. URLs with user
info, ports, characters the serializer would rewrite, or a non-`http(s)`
scheme are mapped to `none`, which `resolveNavigationURL` treats exactly
as a parse failure (for a non-`http(s)` scheme the real code also falls
through to the next rule). -/
def parseHttpHref (input : List Char) : Option (List Char) :=
  match schemeOf input with
  | none => none
  | some schemeL =>
    if schemeL = js "http" ∨ schemeL = js "https" then
      hostPathHref schemeL
        (input.drop ((input.takeWhile (fun c => c ≠ ':')).length + 1))
    else none

/-- The regex `/^[\w-]+\.[\w]{2,}/` of step 2 of `resolveNavigationURL`:
`\w` on a lower-cased input. -/
def isWordChar (c : Char) : Bool :=
  c.isAlphanum || c = '_'

/-- `/^[\w-]+\.[\w]{2,}/.test(inputLower)`: a non-empty leading run of
word characters or hyphens, then a dot, then at least two word
characters. (The run is forced to be maximal: `.` is not in `[\w-]`, so
no backtracking alternative exists.) -/
def domainLikeTest (l : List Char) : Bool :=
  let run := l.takeWhile (fun c => isWordChar c || c = '-')
  let rest := l.drop run.length
  decide (run ≠ []) &&
  (match rest with
   | '.' :: tail => decide (2 ≤ (tail.takeWhile isWordChar).length)
   | _ => false)

/-- The regex `/^[\w-]+\.com|\.org|\.net|\.io|\.ai|\.dev/` of step 4:
the alternation binds loosely, so only the `.com` branch is anchored at
the start; the other suffixes match anywhere in the string. -/
def tldLikeTest (l : List Char) : Bool :=
  (let run := l.takeWhile (fun c => isWordChar c || c = '-')
   decide (run ≠ []) && (js ".com").isPrefixOf (l.drop run.length)) ||
  incl l (js ".org") || incl l (js ".net") || incl l (js ".io") ||
  incl l (js ".ai") || incl l (js ".dev")

/-- The `POPULAR_SITES` table, as an ordered list of
`(keyword, canonical URL)` pairs — object-literal insertion order, which
is the iteration order of `Object.entries` for string keys. -/
def POPULAR_SITES : List (List Char × List Char) :=
  [ (js "youtube", js "https://www.youtube.com"),
    (js "gmail", js "https://mail.google.com"),
    (js "google", js "https://www.google.com"),
    (js "facebook", js "https://www.facebook.com"),
    (js "instagram", js "https://www.instagram.com"),
    (js "twitter", js "https://twitter.com"),
    (js "x", js "https://twitter.com"),
    (js "linkedin", js "https://www.linkedin.com"),
    (js "reddit", js "https://www.reddit.com"),
    (js "github", js "https://github.com"),
    (js "stackoverflow", js "https://stackoverflow.com"),
    (js "chatgpt", js "https://chat.openai.com"),
    (js "openai", js "https://chat.openai.com"),
    (js "claude", js "https://claude.ai"),
    (js "anthropic", js "https://claude.ai"),
    (js "netflix", js "https://www.netflix.com"),
    (js "amazon", js "https://www.amazon.com"),
    (js "ebay", js "https://www.ebay.com"),
    (js "wikipedia", js "https://www.wikipedia.org"),
    (js "medium", js "https://medium.com"),
    (js "notion", js "https://www.notion.so"),
    (js "figma", js "https://www.figma.com"),
    (js "canva", js "https://www.canva.com"),
    (js "spotify", js "https://www.spotify.com"),
    (js "twitch", js "https://www.twitch.tv"),
    (js "discord", js "https://discord.com"),
    (js "slack", js "https://slack.com"),
    (js "zoom", js "https://zoom.us"),
    (js "drive", js "https://drive.google.com"),
    (js "docs", js "https://docs.google.com"),
    (js "sheets", js "https://sheets.google.com") ]

/-- One UTF-8 code unit as `%XX` with uppercase hex digits. -/
def percentByte (b : Nat) : List Char :=
  let hexDigit := fun n =>
    if n < 10 then Char.ofNat ('0'.toNat + n) else Char.ofNat ('A'.toNat + n - 10)
  ['%', hexDigit (b / 16), hexDigit (b % 16)]

/-- The UTF-8 encoding of one character as its list of byte values. -/
def utf8Bytes (c : Char) : List Nat :=
  let n := c.toNat
  if n < 0x80 then [n]
  else if n < 0x800 then [0xC0 + n / 64, 0x80 + n % 64]
  else if n < 0x10000 then
    [0xE0 + n / 4096, 0x80 + n / 64 % 64, 0x80 + n % 64]
  else
    [0xF0 + n / 0x40000, 0x80 + n / 4096 % 64, 0x80 + n / 64 % 64, 0x80 + n % 64]

/-- A character `encodeURIComponent` leaves unescaped:
alphanumerics and `- _ . ! ~ * ' ( )`. -/
def isUriUnreserved (c : Char) : Bool :=
  c.isAlphanum || c = '-' || c = '_' || c = '.' || c = '!' || c = '~' ||
  c = '*' || c = '\'' || c = '(' || c = ')'

/-- `encodeURIComponent(s)`. -/
def encodeURIComponent (s : List Char) : List Char :=
  s.flatMap (fun c =>
    if isUriUnreserved c then [c] else (utf8Bytes c).flatMap percentByte)

/-- `resolveNavigationURL(input)` — the ordered cascade: an absolute
`http(s)` URL is returned as its `href`; a `www.`-prefixed or domain-like
input gets `https://` prepended; otherwise the first popular-site keyword
contained in the lower-cased trimmed input wins; otherwise a
top-level-domain-like input gets `https://` prepended; otherwise a Google
search URL for the URL-encoded original input. -/
def resolveNavigationURL (input : List Char) : List Char :=
  let inputLower := trim (lower input)
  match parseHttpHref input with
  | some href => href
  | none =>
    if (js "www.").isPrefixOf inputLower || domainLikeTest inputLower then
      js "https://" ++ input
    else
      match POPULAR_SITES.find? (fun p => incl inputLower p.1) with
      | some p => p.2
      | none =>
        if tldLikeTest inputLower then js "https://" ++ input
        else js "https://www.google.com/search?q=" ++ encodeURIComponent input

/-! ### The Levenshtein matrix entries are bounded by `max i j`

`Bnd i j0 row` states that the entry of `row` at offset `k` (column
`j0 + k` of the matrix) is at most `max i (j0 + k)` — the classical bound
on the edit distance of the length-`i` and length-`j` prefixes. -/

def Bnd (i : Nat) : Nat → List Nat → Prop
  | _, [] => True
  | j0, x :: xs => x ≤ max i j0 ∧ Bnd i (j0 + 1) xs

lemma max_succ_le_succ_max (i j : Nat) : max i j + 1 ≤ max (i + 1) (j + 1) := by
  rcases Nat.le_total i j with h | h
  · rw [Nat.max_eq_right h, Nat.max_eq_right (by omega)]
  · rw [Nat.max_eq_left h, Nat.max_eq_left (by omega)]

lemma bnd_levRowAux (c : Char) (ys : List Char) :
    ∀ (prev : List Nat) (left i j0 : Nat), Bnd i j0 prev →
      left ≤ max (i + 1) j0 → Bnd (i + 1) (j0 + 1) (levRowAux c ys prev left) := by
  induction ys with
  | nil => intro prev left i j0 _ _; cases prev <;> simp [levRowAux, Bnd]
  | cons y ys ih =>
    intro prev left i j0 hp hl
    cases prev with
    | nil => simp [levRowAux, Bnd]
    | cons diag rest =>
      have hdiag : diag ≤ max i j0 := hp.1
      have hv : min (min (rest.headD 0 + 1) (left + 1))
          (diag + (if c = y then 0 else 1)) ≤ max (i + 1) (j0 + 1) := by
        have hcost : (if c = y then 0 else 1) ≤ 1 := by split <;> omega
        have h1 : diag + (if c = y then 0 else 1) ≤ max i j0 + 1 := by omega
        exact le_trans (min_le_right _ _)
          (le_trans h1 (max_succ_le_succ_max i j0))
      exact ⟨hv, ih rest _ i (j0 + 1) hp.2 hv⟩

lemma bnd_levStep (s2 : List Char) (prev : List Nat) (c : Char) (i : Nat)
    (hp : Bnd i 0 prev) : Bnd (i + 1) 0 (levStep s2 prev c) := by
  have hfirst : prev.headD 0 + 1 ≤ max (i + 1) 0 := by
    cases prev with
    | nil => simp
    | cons x xs =>
      have : x ≤ max i 0 := hp.1
      simp only [List.headD_cons]
      simp only [Nat.max_zero] at this ⊢
      omega
  exact ⟨hfirst, bnd_levRowAux c s2 prev _ i 0 hp hfirst⟩

lemma levRowAux_length (c : Char) (ys : List Char) :
    ∀ (prev : List Nat) (left : Nat),
      (levRowAux c ys prev left).length = min ys.length prev.length := by
  induction ys with
  | nil => intro prev left; cases prev <;> simp [levRowAux]
  | cons y ys ih =>
    intro prev left
    cases prev with
    | nil => simp [levRowAux]
    | cons diag rest => simp [levRowAux, ih rest]; omega

lemma levStep_length (s2 : List Char) (prev : List Nat) (c : Char)
    (h : prev.length = s2.length + 1) :
    (levStep s2 prev c).length = s2.length + 1 := by
  simp [levStep, levRowAux_length, h]

lemma bnd_fold (s2 : List Char) (l : List Char) :
    ∀ (prev : List Nat) (i : Nat),
      Bnd i 0 prev → prev.length = s2.length + 1 →
      Bnd (i + l.length) 0 (l.foldl (levStep s2) prev) ∧
        (l.foldl (levStep s2) prev).length = s2.length + 1 := by
  induction l with
  | nil => intro prev i hp hl; exact ⟨hp, hl⟩
  | cons c l ih =>
    intro prev i hp hl
    have hstep := ih (levStep s2 prev c) (i + 1) (bnd_levStep s2 prev c i hp)
      (levStep_length s2 prev c hl)
    constructor
    · have := hstep.1
      have harith : i + 1 + l.length = i + (c :: l).length := by
        simp [List.length_cons]; omega
      rw [harith] at this
      exact this
    · exact hstep.2

lemma bnd_range' (i : Nat) : ∀ (n j0 : Nat), Bnd i j0 (List.range' j0 n) := by
  intro n
  induction n with
  | zero => intro j0; simp [List.range', Bnd]
  | succ n ih =>
    intro j0
    exact ⟨Nat.le_max_right i j0, ih (j0 + 1)⟩

lemma getLastD_le_of_bnd : ∀ (l : List Nat) (i j0 a : Nat),
    a ≤ max i j0 → Bnd i (j0 + 1) l → l.getLastD a ≤ max i (j0 + l.length) := by
  intro l
  induction l with
  | nil => intro i j0 a ha _; simpa using ha
  | cons b t ih =>
    intro i j0 a ha hb
    rw [List.getLastD_cons]
    have := ih i (j0 + 1) b hb.1 hb.2
    have harith : j0 + 1 + t.length = j0 + (b :: t).length := by
      simp [List.length_cons]; omega
    rw [harith] at this
    exact this

/-- The classical bound on the DP output: the Levenshtein distance is at
most the length of the longer string. -/
lemma levenshteinDistance_le_max (s1 s2 : List Char) :
    levenshteinDistance s1 s2 ≤ max s1.length s2.length := by
  have hrow0 : Bnd 0 0 (List.range (s2.length + 1)) := by
    rw [List.range_eq_range']
    exact bnd_range' 0 (s2.length + 1) 0
  have hrow0' : ∀ i, Bnd i 0 (List.range (s2.length + 1)) := by
    intro i
    rw [List.range_eq_range']
    exact bnd_range' i (s2.length + 1) 0
  have hfold := bnd_fold s2 s1 (List.range (s2.length + 1)) 0 (hrow0' 0)
    (by simp)
  rcases hfold with ⟨hbnd, hlen⟩
  rw [Nat.zero_add] at hbnd
  unfold levenshteinDistance
  cases hfinal : s1.foldl (levStep s2) (List.range (s2.length + 1)) with
  | nil => simp [hfinal] at hlen
  | cons b t =>
    rw [hfinal] at hbnd hlen
    rw [List.getLastD_cons]
    have hb : b ≤ max s1.length 0 := hbnd.1
    have := getLastD_le_of_bnd t s1.length 0 b hb hbnd.2
    have hlen' : t.length = s2.length := by simpa using hlen
    rw [Nat.zero_add, hlen'] at this
    exact this

/-! ### Score range invariants -/

lemma levSimilarity_range (c1 c2 : List Char)
    (hm0 : ¬ max c1.length c2.length = 0) :
    0 ≤ (((max c1.length c2.length : ℕ) : ℚ) - (levenshteinDistance c1 c2 : ℚ)) /
        ((max c1.length c2.length : ℕ) : ℚ) * 100 ∧
      (((max c1.length c2.length : ℕ) : ℚ) - (levenshteinDistance c1 c2 : ℚ)) /
        ((max c1.length c2.length : ℕ) : ℚ) * 100 ≤ 100 := by
  set m := max c1.length c2.length with hm
  have hd : levenshteinDistance c1 c2 ≤ m := levenshteinDistance_le_max c1 c2
  have hmpos : (0 : ℚ) < (m : ℚ) := by
    have : 0 < m := Nat.pos_of_ne_zero hm0
    exact_mod_cast this
  have hdq : (levenshteinDistance c1 c2 : ℚ) ≤ (m : ℚ) := by exact_mod_cast hd
  have hnum : (0 : ℚ) ≤ (m : ℚ) - (levenshteinDistance c1 c2 : ℚ) := by linarith
  have hratio₀ : (0 : ℚ) ≤ ((m : ℚ) - (levenshteinDistance c1 c2 : ℚ)) / m :=
    div_nonneg hnum (le_of_lt hmpos)
  have hratio₁ : ((m : ℚ) - (levenshteinDistance c1 c2 : ℚ)) / m ≤ 1 := by
    rw [div_le_one hmpos]
    have : (0 : ℚ) ≤ (levenshteinDistance c1 c2 : ℚ) := by positivity
    linarith
  constructor
  · positivity
  · nlinarith

lemma phoneticSimilarity_range (s1 s2 : List Char) :
    0 ≤ phoneticSimilarity s1 s2 ∧ phoneticSimilarity s1 s2 ≤ 100 := by
  unfold phoneticSimilarity
  by_cases hpat : (patternTable.any fun p =>
      incl (cleanStr s1) p.1 && incl (cleanStr s2) p.2 ||
      incl (cleanStr s1) p.2 && incl (cleanStr s2) p.1) = true
  · simp only [hpat, if_true]
    norm_num
  · simp only [hpat, if_false, Bool.false_eq_true]
    by_cases hm0 : max (cleanStr s1).length (cleanStr s2).length = 0
    · simp only [hm0, if_pos rfl]
      norm_num
    · simp only [if_neg hm0]
      exact levSimilarity_range _ _ hm0

lemma charFuzzyMatches_le (q : List Char) : ∀ t, charFuzzyMatches q t ≤ q.length := by
  induction q with
  | nil => intro t; simp [charFuzzyMatches]
  | cons c q ih =>
    intro t
    unfold charFuzzyMatches
    cases dropAfterChar c t with
    | none =>
      have := ih t
      simp only [List.length_cons]
      omega
    | some t' =>
      have := ih t'
      simp only [List.length_cons]
      omega

lemma splitWsGo_ne_nil : ∀ (l cur : List Char) (sk : Bool), splitWsGo l cur sk ≠ [] := by
  intro l
  induction l with
  | nil => intro cur sk; simp [splitWsGo]
  | cons c rest ih =>
    intro cur sk
    unfold splitWsGo
    split
    · split
      · exact ih [] true
      · simp
    · exact ih (c :: cur) false

lemma splitWs_length_pos (l : List Char) : 0 < (splitWs l).length :=
  List.length_pos.mpr (splitWsGo_ne_nil l [] false)

lemma fuzzyMatchScore_range (q t : List Char) :
    0 ≤ fuzzyMatchScore q t ∧ fuzzyMatchScore q t ≤ 100 := by
  unfold fuzzyMatchScore
  by_cases h0 : t = []
  · simp only [if_pos h0]
    norm_num
  · simp only [if_neg h0]
    by_cases h1 : lower t = trim (lower q)
    · simp only [if_pos h1]
      norm_num
    · simp only [if_neg h1]
      by_cases h2 : (trim (lower q)).isPrefixOf (lower t) = true
      · simp only [if_pos h2]
        norm_num
      · simp only [if_neg h2]
        by_cases h3 : incl (lower t) (trim (lower q)) = true
        · simp only [if_pos h3]
          norm_num
        · simp only [if_neg h3]
          by_cases h4 : phoneticSimilarity (trim (lower q)) (lower t) > 80
          · simp only [if_pos h4]
            exact phoneticSimilarity_range _ _
          · simp only [if_neg h4]
            by_cases h5 : (List.filter
                  (fun w => (splitWs (lower t)).any fun tw => incl tw w)
                  (splitWs (trim (lower q)))).length
                = (splitWs (trim (lower q))).length
            · simp only [if_pos h5]
              norm_num
            · simp only [if_neg h5]
              by_cases h6 : (List.filter
                  (fun w => (splitWs (lower t)).any fun tw => incl tw w)
                  (splitWs (trim (lower q)))).length > 0
              · simp only [if_pos h6]
                have hle : (List.filter
                    (fun w => (splitWs (lower t)).any fun tw => incl tw w)
                    (splitWs (trim (lower q)))).length
                    ≤ (splitWs (trim (lower q))).length := List.length_filter_le _ _
                have hwpos : (0 : ℚ) < ((splitWs (trim (lower q))).length : ℚ) := by
                  exact_mod_cast splitWs_length_pos (trim (lower q))
                have hratio₀ : (0 : ℚ) ≤
                    ((List.filter (fun w => (splitWs (lower t)).any fun tw => incl tw w)
                      (splitWs (trim (lower q)))).length : ℚ) /
                      ((splitWs (trim (lower q))).length : ℚ) :=
                  div_nonneg (by positivity) (le_of_lt hwpos)
                have hratio₁ :
                    ((List.filter (fun w => (splitWs (lower t)).any fun tw => incl tw w)
                      (splitWs (trim (lower q)))).length : ℚ) /
                      ((splitWs (trim (lower q))).length : ℚ) ≤ 1 := by
                  rw [div_le_one hwpos]
                  exact_mod_cast hle
                constructor <;> nlinarith
              · simp only [if_neg h6]
                have hfs₀ : (0 : ℚ) ≤
                    ((charFuzzyMatches (trim (lower q)) (lower t) : ℚ) /
                      ((trim (lower q)).length : ℚ)) * 40 := by
                  positivity
                have hfs₁ : ((charFuzzyMatches (trim (lower q)) (lower t) : ℚ) /
                    ((trim (lower q)).length : ℚ)) * 40 ≤ 40 := by
                  rcases Nat.eq_zero_or_pos (trim (lower q)).length with hz | hpos
                  · simp [hz]
                  · have hqpos : (0 : ℚ) < ((trim (lower q)).length : ℚ) := by
                      exact_mod_cast hpos
                    have hle : (charFuzzyMatches (trim (lower q)) (lower t) : ℚ)
                        ≤ ((trim (lower q)).length : ℚ) := by
                      exact_mod_cast charFuzzyMatches_le (trim (lower q)) (lower t)
                    have : (charFuzzyMatches (trim (lower q)) (lower t) : ℚ) /
                        ((trim (lower q)).length : ℚ) ≤ 1 := by
                      rw [div_le_one hqpos]
                      exact hle
                    nlinarith
                have hph := phoneticSimilarity_range (trim (lower q)) (lower t)
                constructor
                · exact le_max_of_le_left hfs₀
                · apply max_le
                  · linarith
                  · nlinarith [hph.1, hph.2]

/-- C8. Every score is in `[0, 100]`: `phoneticSimilarity` and
`fuzzyMatchScore` always land in the range, `fuzzyMatchScore` returns 0 on
an empty/absent text, and therefore every scored candidate built during
tab selection satisfies `0 ≤ score ≤ 100`. -/
theorem score_range_invariant :
    (∀ s1 s2, 0 ≤ phoneticSimilarity s1 s2 ∧ phoneticSimilarity s1 s2 ≤ 100) ∧
    (∀ q t, 0 ≤ fuzzyMatchScore q t ∧ fuzzyMatchScore q t ≤ 100) ∧
    (∀ q, fuzzyMatchScore q [] = 0) ∧
    (∀ q tab, 0 ≤ candScore q tab ∧ candScore q tab ≤ 100) := by
  refine ⟨phoneticSimilarity_range, fuzzyMatchScore_range, fun q => rfl, ?_⟩
  intro q tab
  have h1 := fuzzyMatchScore_range q tab.title
  have h2 := fuzzyMatchScore_range q tab.url
  unfold candScore
  constructor
  · exact le_max_of_le_left h1.1
  · exact max_le h1.2 h2.2

/-! ### Branch characterizations of the scorers -/

lemma phoneticSimilarity_patternCase (s1 s2 : List Char)
    (hpat : (patternTable.any fun p =>
      incl (cleanStr s1) p.1 && incl (cleanStr s2) p.2 ||
      incl (cleanStr s1) p.2 && incl (cleanStr s2) p.1) = true) :
    phoneticSimilarity s1 s2 = 95 := by
  unfold phoneticSimilarity
  simp only [hpat, if_true]

lemma phoneticSimilarity_levCase (s1 s2 : List Char)
    (hpat : ¬ (patternTable.any fun p =>
      incl (cleanStr s1) p.1 && incl (cleanStr s2) p.2 ||
      incl (cleanStr s1) p.2 && incl (cleanStr s2) p.1) = true)
    (hm0 : ¬ max (cleanStr s1).length (cleanStr s2).length = 0) :
    phoneticSimilarity s1 s2 =
      (((max (cleanStr s1).length (cleanStr s2).length : ℕ) : ℚ) -
        (levenshteinDistance (cleanStr s1) (cleanStr s2) : ℚ)) /
        ((max (cleanStr s1).length (cleanStr s2).length : ℕ) : ℚ) * 100 := by
  unfold phoneticSimilarity
  simp only [if_neg hpat, if_neg hm0]

lemma fuzzyMatchScore_exact (q t : List Char) (h0 : ¬ t = [])
    (h1 : lower t = trim (lower q)) : fuzzyMatchScore q t = 100 := by
  unfold fuzzyMatchScore
  simp only [if_neg h0, if_pos h1]

lemma fuzzyMatchScore_startsWith (q t : List Char) (h0 : ¬ t = [])
    (h1 : ¬ lower t = trim (lower q))
    (h2 : (trim (lower q)).isPrefixOf (lower t) = true) :
    fuzzyMatchScore q t = 90 := by
  unfold fuzzyMatchScore
  simp only [if_neg h0, if_neg h1, if_pos h2]

lemma not_exact_of_not_isPrefixOf (q t : List Char)
    (h2 : ¬ (trim (lower q)).isPrefixOf (lower t) = true) :
    ¬ lower t = trim (lower q) := by
  intro he
  apply h2
  rw [he, List.isPrefixOf_iff_prefix]

lemma fuzzyMatchScore_contains (q t : List Char) (h0 : ¬ t = [])
    (h2 : ¬ (trim (lower q)).isPrefixOf (lower t) = true)
    (h3 : incl (lower t) (trim (lower q)) = true) :
    fuzzyMatchScore q t = 85 := by
  unfold fuzzyMatchScore
  simp only [if_neg h0, if_neg (not_exact_of_not_isPrefixOf q t h2), if_neg h2,
    if_pos h3]

lemma fuzzyMatchScore_phoneticCase (q t : List Char) (h0 : ¬ t = [])
    (h2 : ¬ (trim (lower q)).isPrefixOf (lower t) = true)
    (h3 : ¬ incl (lower t) (trim (lower q)) = true)
    (h4 : phoneticSimilarity (trim (lower q)) (lower t) > 80) :
    fuzzyMatchScore q t = phoneticSimilarity (trim (lower q)) (lower t) := by
  unfold fuzzyMatchScore
  simp only [if_neg h0, if_neg (not_exact_of_not_isPrefixOf q t h2), if_neg h2,
    if_neg h3, if_pos h4]

lemma fuzzyMatchScore_wordsAll (q t : List Char) (h0 : ¬ t = [])
    (h2 : ¬ (trim (lower q)).isPrefixOf (lower t) = true)
    (h3 : ¬ incl (lower t) (trim (lower q)) = true)
    (h4 : ¬ phoneticSimilarity (trim (lower q)) (lower t) > 80)
    (h5 : (List.filter (fun w => (splitWs (lower t)).any fun tw => incl tw w)
      (splitWs (trim (lower q)))).length = (splitWs (trim (lower q))).length) :
    fuzzyMatchScore q t = 70 := by
  unfold fuzzyMatchScore
  simp only [if_neg h0, if_neg (not_exact_of_not_isPrefixOf q t h2), if_neg h2,
    if_neg h3, if_neg h4, if_pos h5]

lemma fuzzyMatchScore_charLevel (q t : List Char) (h0 : ¬ t = [])
    (h2 : ¬ (trim (lower q)).isPrefixOf (lower t) = true)
    (h3 : ¬ incl (lower t) (trim (lower q)) = true)
    (h4 : ¬ phoneticSimilarity (trim (lower q)) (lower t) > 80)
    (h5 : ¬ (List.filter (fun w => (splitWs (lower t)).any fun tw => incl tw w)
      (splitWs (trim (lower q)))).length = (splitWs (trim (lower q))).length)
    (h6 : ¬ (List.filter (fun w => (splitWs (lower t)).any fun tw => incl tw w)
      (splitWs (trim (lower q)))).length > 0) :
    fuzzyMatchScore q t =
      max ((charFuzzyMatches (trim (lower q)) (lower t) : ℚ) /
          ((trim (lower q)).length : ℚ) * 40)
        (phoneticSimilarity (trim (lower q)) (lower t) * 0.5) := by
  unfold fuzzyMatchScore
  simp only [if_neg h0, if_neg (not_exact_of_not_isPrefixOf q t h2), if_neg h2,
    if_neg h3, if_neg h4, if_neg h5, if_neg h6]

/-! ### Generic facts about `foldl max` and `bestScore` -/

lemma foldl_max_le_init (l : List ℚ) (a : ℚ) : a ≤ l.foldl max a := by
  induction l generalizing a with
  | nil => exact le_refl a
  | cons x l ih => exact le_trans (le_max_left a x) (ih (max a x))

lemma le_foldl_max_of_mem (l : List ℚ) (a x : ℚ) (hx : x ∈ l) :
    x ≤ l.foldl max a := by
  induction l generalizing a with
  | nil => cases hx
  | cons y l ih =>
    rcases List.mem_cons.mp hx with h | h
    · subst h
      exact le_trans (le_max_right a x) (foldl_max_le_init l (max a x))
    · exact ih (max a y) h

lemma foldl_max_eq_init_or_mem (l : List ℚ) (a : ℚ) :
    l.foldl max a = a ∨ l.foldl max a ∈ l := by
  induction l generalizing a with
  | nil => exact Or.inl rfl
  | cons x l ih =>
    rcases ih (max a x) with h | h
    · rcases max_choice a x with hm | hm
      · exact Or.inl (by rw [List.foldl_cons, h, hm])
      · exact Or.inr (by rw [List.foldl_cons, h, hm]; exact List.mem_cons_self ..)
    · exact Or.inr (List.mem_cons_of_mem x h)

lemma le_bestScore (q : List Char) (tabs : List Tab) (t : Tab) (ht : t ∈ tabs) :
    candScore q t ≤ bestScore q tabs := by
  cases tabs with
  | nil => cases ht
  | cons t0 ts =>
    rcases List.mem_cons.mp ht with h | h
    · subst h
      exact foldl_max_le_init _ _
    · exact le_foldl_max_of_mem _ _ _ (List.mem_map_of_mem _ h)

lemma bestScore_attained (q : List Char) (tabs : List Tab) (h : tabs ≠ []) :
    ∃ t ∈ tabs, candScore q t = bestScore q tabs := by
  cases tabs with
  | nil => exact absurd rfl h
  | cons t0 ts =>
    rcases foldl_max_eq_init_or_mem (ts.map (candScore q)) (candScore q t0) with
      hc | hc
    · exact ⟨t0, List.mem_cons_self .., by simpa [bestScore] using hc.symm⟩
    · obtain ⟨t, ht, he⟩ := List.mem_map.mp hc
      exact ⟨t, List.mem_cons_of_mem _ ht, by simpa [bestScore] using he⟩

/-- The head of the descending stable sort of the scored tab list carries
the maximal candidate score, and `selectTab` either rejects it below 30 or
returns it. -/
lemma selectTab_eq (q : List Char) (tabs : List Tab) (h : tabs ≠ []) :
    ∃ t, t ∈ tabs ∧ candScore q t = bestScore q tabs ∧
      selectTab q tabs =
        (if bestScore q tabs < 30 then .error (.noMatch (bestScore q tabs))
         else .ok (t, bestScore q tabs)) := by
  classical
  set le : Tab × ℚ → Tab × ℚ → Bool := fun a b => decide (b.2 ≤ a.2) with hle
  set scored : List (Tab × ℚ) := tabs.map (fun t => (t, candScore q t)) with hscored
  have hperm : (scored.mergeSort le).Perm scored := List.mergeSort_perm scored le
  have hne : scored.mergeSort le ≠ [] := by
    intro he
    have := hperm.length_eq
    rw [he] at this
    simp [hscored] at this
    exact h (List.length_eq_zero.mp this.symm)
  obtain ⟨b, rest, hs⟩ := List.exists_cons_of_ne_nil hne
  have hbmem : b ∈ scored := hperm.mem_iff.mp (hs ▸ List.mem_cons_self ..)
  obtain ⟨t, ht, hbt⟩ := List.mem_map.mp (hscored ▸ hbmem)
  have hsorted : List.Pairwise (fun a b => le a b = true) (scored.mergeSort le) :=
    List.sorted_mergeSort
      (fun a b c hab hbc => by
        simp only [hle, decide_eq_true_eq] at hab hbc ⊢
        exact le_trans hbc hab)
      (fun a b => by
        simp only [hle, decide_eq_true_eq, Bool.or_eq_true]
        exact le_total b.2 a.2)
      scored
  rw [hs] at hsorted
  have hmax : ∀ x ∈ scored, x.2 ≤ b.2 := by
    intro x hx
    have hx' : x ∈ b :: rest := hs ▸ hperm.mem_iff.mpr hx
    rcases List.mem_cons.mp hx' with h' | h'
    · exact h' ▸ le_refl _
    · have := (List.pairwise_cons.mp hsorted).1 x h'
      simpa [hle, decide_eq_true_eq] using this
  have hb2 : b.2 = bestScore q tabs := by
    apply le_antisymm
    · rw [← hbt]
      exact le_bestScore q tabs t ht
    · obtain ⟨t', ht', he'⟩ := bestScore_attained q tabs h
      have : (t', candScore q t') ∈ scored := by
        rw [hscored]
        exact List.mem_map_of_mem _ ht'
      have := hmax _ this
      simpa [he'] using this
  have hcand : candScore q t = bestScore q tabs := by
    rw [← hb2, ← hbt]
  refine ⟨t, ht, hcand, ?_⟩
  show (match scored.mergeSort le with
    | [] => (.error .typeErrorUndefinedScore : Except TabSwitchFailure (Tab × ℚ))
    | bestMatch :: _ =>
      if bestMatch.2 < 30 then .error (.noMatch bestMatch.2) else .ok bestMatch) = _
  rw [hs]
  have hbt' : b = (t, bestScore q tabs) := by
    rw [← hbt, hcand]
  rw [hbt']

/-- C1. For a non-empty tab list: every candidate's score is the maximum of
the fuzzy scores of its title and URL; the returned tab carries the
maximal candidate score; and the operation fails with the `No good tab
match` error exactly when that best score is below 30. -/
theorem executeTabSwitch_best_match_spec (q : List Char) (tabs : List Tab)
    (h : tabs ≠ []) :
    (∀ t, candScore q t =
      max (fuzzyMatchScore q t.title) (fuzzyMatchScore q t.url)) ∧
    (∀ t ∈ tabs, candScore q t ≤ bestScore q tabs) ∧
    (isNoMatchFailure (selectTab q tabs) = true ↔ bestScore q tabs < 30) ∧
    (30 ≤ bestScore q tabs →
      ∃ t ∈ tabs, candScore q t = bestScore q tabs ∧
        selectTab q tabs = .ok (t, bestScore q tabs)) := by
  obtain ⟨t, ht, hc, he⟩ := selectTab_eq q tabs h
  refine ⟨fun _ => rfl, fun t' ht' => le_bestScore q tabs t' ht', ?_, ?_⟩
  · constructor
    · intro hno
      by_contra hlt
      rw [if_neg hlt] at he
      rw [he] at hno
      simp [isNoMatchFailure] at hno
    · intro hlt
      rw [if_pos hlt] at he
      rw [he]
      rfl
  · intro hge
    have hlt : ¬ bestScore q tabs < 30 := not_lt.mpr hge
    rw [if_neg hlt] at he
    exact ⟨t, ht, hc, he⟩

/-- C1 witness: a concrete one-tab list where the exact-match tab is
returned with the maximal score. -/
theorem executeTabSwitch_best_match_spec_witness :
    (∀ t, candScore (js "github") t =
      max (fuzzyMatchScore (js "github") t.title)
        (fuzzyMatchScore (js "github") t.url)) ∧
    (∀ t ∈ [Tab.mk (js "GitHub") []],
      candScore (js "github") t ≤ bestScore (js "github") [Tab.mk (js "GitHub") []]) ∧
    (isNoMatchFailure (selectTab (js "github") [Tab.mk (js "GitHub") []]) = true ↔
      bestScore (js "github") [Tab.mk (js "GitHub") []] < 30) ∧
    (30 ≤ bestScore (js "github") [Tab.mk (js "GitHub") []] →
      ∃ t ∈ [Tab.mk (js "GitHub") []],
        candScore (js "github") t = bestScore (js "github") [Tab.mk (js "GitHub") []] ∧
        selectTab (js "github") [Tab.mk (js "GitHub") []] =
          .ok (t, bestScore (js "github") [Tab.mk (js "GitHub") []])) :=
  executeTabSwitch_best_match_spec (js "github") [Tab.mk (js "GitHub") []]
    (by decide)

/-- C4 counterexample: with zero open tabs, `executeTabSwitch` does not
fail with the `No good tab match` error — `scoredTabs[0]` is `undefined`
and reading its `.score` throws a `TypeError`. -/
theorem executeTabSwitch_empty_not_noMatch :
    selectTab (js "github") [] = .error .typeErrorUndefinedScore ∧
    isNoMatchFailure (selectTab (js "github") []) = false := by
  constructor
  · show (match ([] : List (Tab × ℚ)).mergeSort _ with
      | [] => (.error .typeErrorUndefinedScore : Except TabSwitchFailure (Tab × ℚ))
      | bestMatch :: _ =>
        if bestMatch.2 < 30 then .error (.noMatch bestMatch.2) else .ok bestMatch) = _
    rw [List.mergeSort_nil]
  · show isNoMatchFailure (match ([] : List (Tab × ℚ)).mergeSort _ with
      | [] => (.error .typeErrorUndefinedScore : Except TabSwitchFailure (Tab × ℚ))
      | bestMatch :: _ =>
        if bestMatch.2 < 30 then .error (.noMatch bestMatch.2) else .ok bestMatch) = false
    rw [List.mergeSort_nil]
    rfl

/-- C4 amended: tab selection over the empty tab list fails for every
query, but with the `TypeError` raised while indexing the empty scored
list (`scoredTabs[0].score`), not with the below-threshold
`No good tab match` error. -/
theorem executeTabSwitch_empty_typeError (q : List Char) :
    selectTab q [] = .error .typeErrorUndefinedScore := by
  show (match ([] : List (Tab × ℚ)).mergeSort _ with
    | [] => (.error .typeErrorUndefinedScore : Except TabSwitchFailure (Tab × ℚ))
    | bestMatch :: _ =>
      if bestMatch.2 < 30 then .error (.noMatch bestMatch.2) else .ok bestMatch) = _
  rw [List.mergeSort_nil]

/-- C5 counterexample: `" a"` is a non-empty string, yet
`fuzzyMatchScore(" a", " a")` is 85, not 100 — trimming is applied to the
query but not to the text, so the exact-match rule misses itself. -/
theorem fuzzyMatchScore_identity_counterexample :
    fuzzyMatchScore (js " a") (js " a") = 85 ∧ (85 : ℚ) ≠ 100 :=
  ⟨by decide, by norm_num⟩

/-- C5 amended: for every non-empty `q` whose lower-casing is unchanged by
trimming (no leading or trailing whitespace), `fuzzyMatchScore(q, q)`
is 100. -/
theorem fuzzyMatchScore_identity_100 (q : List Char) (h0 : ¬ q = [])
    (h1 : trim (lower q) = lower q) : fuzzyMatchScore q q = 100 :=
  fuzzyMatchScore_exact q q h0 h1.symm

/-- C5 witness: the amended identity at `"GitHub"`. -/
theorem fuzzyMatchScore_identity_100_witness :
    fuzzyMatchScore (js "GitHub") (js "GitHub") = 100 :=
  fuzzyMatchScore_identity_100 (js "GitHub") (by decide) (by decide)

/-- C6 counterexample: `"get up"` occurs in `"xget up"` as a non-prefix
substring and scores 85, while against `"github.com"` it is a pure
phonetic pattern match scoring 95 — the substring match is not strictly
greater than the phonetic-only match. -/
theorem fuzzyMatchScore_ordering_counterexample :
    fuzzyMatchScore (js "get up") (js "xget up") = 85 ∧
    fuzzyMatchScore (js "get up") (js "github.com") = 95 ∧
    ¬ fuzzyMatchScore (js "get up") (js "xget up") >
        fuzzyMatchScore (js "get up") (js "github.com") := by
  have h1 : fuzzyMatchScore (js "get up") (js "xget up") = 85 := by decide
  have h2 : fuzzyMatchScore (js "get up") (js "github.com") = 95 := by decide
  refine ⟨h1, h2, ?_⟩
  rw [h1, h2]
  norm_num

/-- C6 amended: a prefix hit scores 90 and strictly above a non-prefix
substring hit's 85, but a pure phonetic-only pattern match returns 95 and
thus exceeds both fixed scores. -/
theorem fuzzyMatchScore_ordering :
    (∀ q t, ¬ t = [] → ¬ lower t = trim (lower q) →
      (trim (lower q)).isPrefixOf (lower t) = true → fuzzyMatchScore q t = 90) ∧
    (∀ q t, ¬ t = [] → ¬ (trim (lower q)).isPrefixOf (lower t) = true →
      incl (lower t) (trim (lower q)) = true → fuzzyMatchScore q t = 85) ∧
    ((85 : ℚ) < 90) ∧
    fuzzyMatchScore (js "get up") (js "github.com") = 95 ∧ ((90 : ℚ) < 95) :=
  ⟨fuzzyMatchScore_startsWith, fuzzyMatchScore_contains, by norm_num,
    by decide, by norm_num⟩

/-- C6 witness: the two universal clauses at concrete inputs. -/
theorem fuzzyMatchScore_ordering_witness :
    fuzzyMatchScore (js "git") (js "github") = 90 ∧
    fuzzyMatchScore (js "git") (js "agit") = 85 :=
  ⟨fuzzyMatchScore_ordering.1 (js "git") (js "github")
      (by decide) (by decide) (by decide),
    fuzzyMatchScore_ordering.2.1 (js "git") (js "agit")
      (by decide) (by decide) (by decide)⟩

/-- C7 counterexample: the table's `git hub`/`github` entry can never
fire — its spoken form contains a space, which cleaning strips from every
input — so `phoneticSimilarity("Git Hub!", "GitHub.com")` falls through to
the Levenshtein similarity 200/3 ≈ 66.7, not 95. -/
theorem phoneticSimilarity_gitHub_pair_not_95 :
    phoneticSimilarity (js "Git Hub!") (js "GitHub.com") = 200 / 3 ∧
    (200 / 3 : ℚ) ≠ 95 := by
  constructor
  · rw [phoneticSimilarity_levCase _ _ (by decide) (by decide)]
    rw [show cleanStr (js "Git Hub!") = js "github" from by decide,
      show cleanStr (js "GitHub.com") = js "githubcom" from by decide]
    rw [show levenshteinDistance (js "github") (js "githubcom") = 3 from by decide]
    rw [show (js "github").length = 6 from by decide,
      show (js "githubcom").length = 9 from by decide]
    rw [show (max 6 9 : ℕ) = 9 from rfl]
    norm_num
  · norm_num

/-- C7 amended: for the four space-free confusion pairs
(`getup`/`github`, `youtoo`/`youtube`, `slak`/`slack`, `krome`/`chrome`),
any two inputs containing the spoken and written forms after
normalization — in either direction and regardless of case, punctuation
or surrounding characters — score exactly 95; the `git hub`/`github`
entry is unreachable because normalization strips its space. -/
theorem phoneticSimilarity_pattern_pairs_95 :
    ∀ p ∈ [(js "getup", js "github"), (js "youtoo", js "youtube"),
        (js "slak", js "slack"), (js "krome", js "chrome")],
      ∀ s1 s2 : List Char,
        (incl (cleanStr s1) p.1 = true ∧ incl (cleanStr s2) p.2 = true) ∨
        (incl (cleanStr s1) p.2 = true ∧ incl (cleanStr s2) p.1 = true) →
        phoneticSimilarity s1 s2 = 95 := by
  intro p hp s1 s2 hcond
  apply phoneticSimilarity_patternCase
  rw [List.any_eq_true]
  refine ⟨p, ?_, ?_⟩
  · fin_cases hp <;> decide
  · rcases hcond with ⟨ha, hb⟩ | ⟨ha, hb⟩ <;> simp [ha, hb]

/-- C7 witness: `"Get Up!"` against `"GitHub.com"` scores exactly 95. -/
theorem phoneticSimilarity_pattern_pairs_95_witness :
    phoneticSimilarity (js "Get Up!") (js "GitHub.com") = 95 :=
  phoneticSimilarity_pattern_pairs_95 (js "getup", js "github") (by decide)
    (js "Get Up!") (js "GitHub.com") (Or.inl ⟨by decide, by decide⟩)

/-! ### The `"git hub"` tab-selection example -/

set_option maxRecDepth 4000 in
lemma phonetic_gitHub_pullRequests :
    phoneticSimilarity (trim (lower (js "git hub")))
      (lower (js "GitHub - Pull Requests")) = 100 / 3 := by
  rw [phoneticSimilarity_levCase _ _ (by decide) (by decide)]
  rw [show cleanStr (trim (lower (js "git hub"))) = js "github" from by decide,
    show cleanStr (lower (js "GitHub - Pull Requests")) = js "githubpullrequests"
      from by decide]
  rw [show levenshteinDistance (js "github") (js "githubpullrequests") = 12
    from by decide]
  rw [show (js "github").length = 6 from by decide,
    show (js "githubpullrequests").length = 18 from by decide]
  rw [show (max 6 18 : ℕ) = 18 from rfl]
  norm_num

lemma phonetic_gitHub_youTube :
    phoneticSimilarity (trim (lower (js "git hub"))) (lower (js "YouTube"))
      = 200 / 7 := by
  rw [phoneticSimilarity_levCase _ _ (by decide) (by decide)]
  rw [show cleanStr (trim (lower (js "git hub"))) = js "github" from by decide,
    show cleanStr (lower (js "YouTube")) = js "youtube" from by decide]
  rw [show levenshteinDistance (js "github") (js "youtube") = 5 from by decide]
  rw [show (js "github").length = 6 from by decide,
    show (js "youtube").length = 7 from by decide]
  rw [show (max 6 7 : ℕ) = 7 from rfl]
  norm_num

lemma gitHubTab_candScore :
    candScore (js "git hub") (Tab.mk (js "GitHub - Pull Requests") []) = 70 := by
  show max (fuzzyMatchScore (js "git hub") (js "GitHub - Pull Requests"))
    (fuzzyMatchScore (js "git hub") []) = 70
  rw [fuzzyMatchScore_wordsAll _ _ (by decide) (by decide) (by decide)
    (by rw [phonetic_gitHub_pullRequests]; norm_num) (by decide)]
  rw [show fuzzyMatchScore (js "git hub") [] = 0 from rfl]
  rw [max_eq_left (by norm_num : (0 : ℚ) ≤ 70)]

lemma youTubeTab_candScore :
    candScore (js "git hub") (Tab.mk (js "YouTube") []) = 120 / 7 := by
  show max (fuzzyMatchScore (js "git hub") (js "YouTube"))
    (fuzzyMatchScore (js "git hub") []) = 120 / 7
  rw [fuzzyMatchScore_charLevel _ _ (by decide) (by decide) (by decide)
    (by rw [phonetic_gitHub_youTube]; norm_num) (by decide) (by decide)]
  rw [phonetic_gitHub_youTube]
  rw [show charFuzzyMatches (trim (lower (js "git hub"))) (lower (js "YouTube")) = 3
    from by decide]
  rw [show (trim (lower (js "git hub"))).length = 7 from by decide]
  rw [show fuzzyMatchScore (js "git hub") [] = 0 from rfl]
  rw [show ((3 : ℕ) : ℚ) / ((7 : ℕ) : ℚ) * 40 = 120 / 7 from by norm_num]
  rw [max_eq_left (by norm_num : (200 / 7 : ℚ) * 0.5 ≤ 120 / 7)]
  rw [max_eq_left (by norm_num : (0 : ℚ) ≤ 120 / 7)]

lemma gitHubExample_selectTab :
    selectTab (js "git hub")
      [Tab.mk (js "GitHub - Pull Requests") [], Tab.mk (js "YouTube") []] =
      .ok (Tab.mk (js "GitHub - Pull Requests") [], 70) := by
  have hb : bestScore (js "git hub")
      [Tab.mk (js "GitHub - Pull Requests") [], Tab.mk (js "YouTube") []] = 70 := by
    unfold bestScore
    rw [List.map_cons, List.map_cons, List.map_nil]
    rw [gitHubTab_candScore, youTubeTab_candScore]
    show List.foldl max 70 [120 / 7] = 70
    rw [List.foldl_cons, List.foldl_nil]
    rw [max_eq_left (by norm_num : (120 / 7 : ℚ) ≤ 70)]
  obtain ⟨t, ht, hc, he⟩ := selectTab_eq (js "git hub")
    [Tab.mk (js "GitHub - Pull Requests") [], Tab.mk (js "YouTube") []]
    (by simp)
  rw [hb] at hc he
  rw [if_neg (by norm_num : ¬ (70 : ℚ) < 30)] at he
  rcases List.mem_cons.mp ht with h | h
  · rw [h] at he
    exact he
  · have h2 : t = Tab.mk (js "YouTube") [] := by simpa using h
    rw [h2, youTubeTab_candScore] at hc
    norm_num at hc

/-- C9 counterexample: for tabs `GitHub - Pull Requests` and `YouTube` and
query `"git hub"`, the GitHub tab is selected but with score 70 (via the
word-boundary rule), not a score of at least 85 — the phonetic pattern for
`git hub` cannot fire because normalization strips its space. -/
theorem tabSelection_gitHub_score_not_85 :
    selectTab (js "git hub")
      [Tab.mk (js "GitHub - Pull Requests") [], Tab.mk (js "YouTube") []] =
      .ok (Tab.mk (js "GitHub - Pull Requests") [], 70) ∧
    ¬ (85 : ℚ) ≤ 70 :=
  ⟨gitHubExample_selectTab, by norm_num⟩

/-- C9 amended: with those tabs and query `"git hub"`, the GitHub tab is
selected with score exactly 70 — a word-boundary match, above the
threshold 30 but below the claimed 85. -/
theorem tabSelection_gitHub_score_70 :
    selectTab (js "git hub")
      [Tab.mk (js "GitHub - Pull Requests") [], Tab.mk (js "YouTube") []] =
      .ok (Tab.mk (js "GitHub - Pull Requests") [], 70) ∧
    (30 : ℚ) ≤ 70 :=
  ⟨gitHubExample_selectTab, by norm_num⟩

/-! ### Navigation claims -/

lemma hostPathHref_shape (schemeL rest href : List Char)
    (hp : hostPathHref schemeL rest = some href) :
    ∃ tail, href = schemeL ++ tail := by
  simp only [hostPathHref] at hp
  split at hp
  · cases hp
  · split at hp
    · cases hp
    · split at hp
      · cases hp
      · injection hp with hp
        exact ⟨_, hp.symm.trans (by rw [List.append_assoc, List.append_assoc])⟩

lemma parseHttpHref_startsWith_http (s href : List Char)
    (hp : parseHttpHref s = some href) :
    (js "http").isPrefixOf href = true := by
  rw [ List.isPrefixOf_iff_prefix]
  cases hs : schemeOf s with
  | none =>
    simp only [parseHttpHref, hs] at hp
    cases hp
  | some schemeL =>
    simp only [parseHttpHref, hs] at hp
    split at hp
    · next hsch =>
      obtain ⟨tail, htail⟩ := hostPathHref_shape _ _ _ hp
      rw [htail]
      rcases hsch with h | h
      · rw [h]
        exact List.prefix_append _ _
      · rw [h]
        have h0 : js "http" <+: js "https" := by decide
        exact h0.trans (List.prefix_append _ _)
    · cases hp

/-- C2. `resolveNavigationURL` is total and always yields an absolute
`http(s)` URL; in particular an input matching no rule, such as
`"purple elephant"`, resolves to the Google search URL carrying the
URL-encoded input as its query term. -/
theorem resolveNavigationURL_total_fallback :
    (∀ s, (js "http").isPrefixOf (resolveNavigationURL s) = true) ∧
    resolveNavigationURL (js "purple elephant") =
      js "https://www.google.com/search?q=purple%20elephant" := by
  constructor
  · intro s
    unfold resolveNavigationURL
    cases hp : parseHttpHref s with
    | some href => exact parseHttpHref_startsWith_http s href hp
    | none =>
      by_cases hww : ((js "www.").isPrefixOf (trim (lower s)) ||
          domainLikeTest (trim (lower s))) = true
      · simp only [if_pos hww]
        rw [ List.isPrefixOf_iff_prefix]
        exact ⟨js "s://" ++ s, rfl⟩
      · simp only [if_neg hww]
        cases hf : POPULAR_SITES.find? (fun p => incl (trim (lower s)) p.1) with
        | some p =>
          have hall : ∀ p ∈ POPULAR_SITES, (js "http").isPrefixOf p.2 = true := by
            decide
          exact hall p (List.mem_of_find?_eq_some hf)
        | none =>
          by_cases htld : tldLikeTest (trim (lower s)) = true
          · simp only [if_pos htld]
            rw [ List.isPrefixOf_iff_prefix]
            exact ⟨js "s://" ++ s, rfl⟩
          · simp only [if_neg htld]
            rw [ List.isPrefixOf_iff_prefix]
            exact ⟨js "s://www.google.com/search?q=" ++ encodeURIComponent s, rfl⟩
  · decide

/-- C3 counterexample: `"https://example.com"` parses as an absolute
`https` URL, but `resolveNavigationURL` returns the serialized `url.href`
`"https://example.com/"` — the trailing slash makes it differ from the
input. -/
theorem resolveNavigationURL_href_normalizes :
    resolveNavigationURL (js "https://example.com") = js "https://example.com/" ∧
    js "https://example.com/" ≠ js "https://example.com" :=
  ⟨by decide, by decide⟩

/-- C3 amended: for every input parsing as an absolute `http(s)` URL,
`resolveNavigationURL` returns its WHATWG serialization `url.href`; the
input comes back unchanged exactly when it is already serialized, as
`"https://example.com/x"` is. -/
theorem resolveNavigationURL_href (s href : List Char)
    (hp : parseHttpHref s = some href) : resolveNavigationURL s = href := by
  unfold resolveNavigationURL
  simp only [hp]

/-- C3 witness: an already-normalized URL is returned unchanged. -/
theorem resolveNavigationURL_href_witness :
    resolveNavigationURL (js "https://example.com/x") = js "https://example.com/x" :=
  resolveNavigationURL_href (js "https://example.com/x")
    (js "https://example.com/x") (by decide)

/-- C10. The single-letter keyword `x` precedes the later table entries
and the popular-site lookup is first-substring-match in insertion order:
any input that reaches the table step, contains the letter `x`, and
contains none of the six keywords before it (youtube, gmail, google,
facebook, instagram, twitter) resolves to `https://twitter.com`. -/
theorem popular_x_shadows_later_entries (s : List Char)
    (hp : parseHttpHref s = none)
    (hw : ¬ ((js "www.").isPrefixOf (trim (lower s)) ||
      domainLikeTest (trim (lower s))) = true)
    (hx : incl (trim (lower s)) (js "x") = true)
    (h1 : incl (trim (lower s)) (js "youtube") = false)
    (h2 : incl (trim (lower s)) (js "gmail") = false)
    (h3 : incl (trim (lower s)) (js "google") = false)
    (h4 : incl (trim (lower s)) (js "facebook") = false)
    (h5 : incl (trim (lower s)) (js "instagram") = false)
    (h6 : incl (trim (lower s)) (js "twitter") = false) :
    resolveNavigationURL s = js "https://twitter.com" := by
  unfold resolveNavigationURL
  simp only [hp]
  simp only [if_neg hw]
  have hfind : POPULAR_SITES.find? (fun p => incl (trim (lower s)) p.1)
      = some (js "x", js "https://twitter.com") := by
    simp only [POPULAR_SITES, List.find?, h1, h2, h3, h4, h5, h6, hx]
  simp only [hfind]

/-- C10 witness: `"netflix"` contains `x` and none of the first six
keywords, so it resolves to Twitter, not to the Netflix entry further
down the table. -/
theorem popular_x_shadows_later_entries_witness :
    resolveNavigationURL (js "netflix") = js "https://twitter.com" ∧
    js "https://twitter.com" ≠ js "https://www.netflix.com" :=
  ⟨popular_x_shadows_later_entries (js "netflix") (by decide) (by decide)
    (by decide) (by decide) (by decide) (by decide) (by decide) (by decide)
    (by decide),
   by decide⟩

end VivaAI
